import Mathlib

/-!
Verification of the room-scoped websocket chat relay (Hub / Room / Client
Session / Command Processor / Broadcaster) against its specification.

The Go source is shallowly embedded: the Hub's directory (map room-name to
Room) becomes an association list of room name to membership list, each
client's outbound Send channel becomes an explicit bounded buffer with a
closed flag and a close counter (Go panics on a send to a closed channel and
on a double close; those events are recorded in the panicked flag), and the
Hub operations (addClientToRoom, removeClientFromRoom, broadcastToRoom,
sendToClient, handleCommand) become pure state transformers.  Go map
iteration order is represented by list order.
-/

namespace WsChat

/-- Serialized wire payloads (the result of json.Marshal). -/
abbrev Data := String

/-- Message type constants from the source. -/
def MsgChat : String := "chat"

def MsgSystem : String := "system"

def MsgUserList : String := "user_list"

def MsgStats : String := "stats"

def MsgCommand : String := "command"

def MsgRoom : String := "room"

/-- The wire Message struct: Type, Room, Username, Text, Time. -/
structure Message where
  MType : String
  Room : String
  Username : String
  Text : String
  Time : String
  deriving DecidableEq, Repr

/-- A connected client: ID, Username and assigned Room (the Conn handle and
the Send channel live outside this identity record; the Send channel is
modelled by the Chan state keyed by the client). -/
structure Client where
  ID : String
  Username : String
  Room : String
  deriving DecidableEq, Repr

/-- State of one Go channel of byte slices: the buffered contents, the
capacity, whether it has been closed, and how many times close was called
(a second close is a Go panic). -/
structure Chan where
  buf : List Data
  cap : Nat
  closed : Bool
  closeCount : Nat
  deriving DecidableEq, Repr

/-- Close a channel (Go close): marks it closed and counts the call. -/
def closeChan (ch : Chan) : Chan :=
  { ch with closed := true, closeCount := ch.closeCount + 1 }

/-- The Hub state: the room directory (name to membership list), the Send
channel of every client, and flags recording a Go panic (send on closed
channel, double close) or a blocked unbuffered send. -/
structure HubState where
  rooms : List (String × List Client)
  chans : List (Client × Chan)
  panicked : Bool
  blocked : Bool
  deriving DecidableEq, Repr

/-- The empty hub produced by newHub. -/
def hub0 : HubState := ⟨[], [], false, false⟩

/-- Channel state of a client (a client that was never registered has no
entry; the default is an open zero-capacity channel, never reached by the
operations below). -/
def getChan : List (Client × Chan) → Client → Chan
  | [], _ => ⟨[], 0, false, 0⟩
  | (x, ch) :: rest, c => if x = c then ch else getChan rest c

/-- Update (or insert) the channel state of a client. -/
def setChan : List (Client × Chan) → Client → Chan → List (Client × Chan)
  | [], c, ch => [(c, ch)]
  | (x, och) :: rest, c, ch =>
      if x = c then (c, ch) :: rest else (x, och) :: setChan rest c ch

/-- Directory lookup: h.rooms[name]. -/
def lookupRoom : List (String × List Client) → String → Option (List Client)
  | [], _ => none
  | (n, ms) :: rest, name => if n = name then some ms else lookupRoom rest name

/-- Directory update: h.rooms[name] = room (replace or insert). -/
def setRoom : List (String × List Client) → String → List Client →
    List (String × List Client)
  | [], name, ms => [(name, ms)]
  | (n, oms) :: rest, name, ms =>
      if n = name then (name, ms) :: rest else (n, oms) :: setRoom rest name ms

/-- Directory deletion: delete(h.rooms, name). -/
def removeRoom : List (String × List Client) → String →
    List (String × List Client)
  | [], _ => []
  | (n, ms) :: rest, name =>
      if n = name then rest else (n, ms) :: removeRoom rest name

/-- Membership of a room, empty when the room is absent. -/
def roomMembers (s : HubState) (name : String) : List Client :=
  (lookupRoom s.rooms name).getD []

/-- JSON string literal (the strings exchanged here carry no characters that
json.Marshal would escape). -/
def jstr (str : String) : String := "\"" ++ str ++ "\""

/-- json.Marshal of a Message, field order as in the struct tags. -/
def marshalMessage (m : Message) : Data :=
  "\x7b\"type\":" ++ jstr m.MType ++ ",\"room\":" ++ jstr m.Room ++
    ",\"username\":" ++ jstr m.Username ++ ",\"text\":" ++ jstr m.Text ++
    ",\"time\":" ++ jstr m.Time ++ "\x7d"

/-- json.Marshal of the StatsMessage struct; RoomDetails is never assigned in
the source, so the nil map serializes as null. -/
def marshalStats (totalUsers totalRooms : Nat) : Data :=
  "\x7b\"total_users\":" ++ toString totalUsers ++ ",\"total_rooms\":" ++
    toString totalRooms ++ ",\"room_details\":null\x7d"

/-- json.Marshal of the map room-name to member count (list order stands in
for Go map order). -/
def marshalCounts (l : List (String × Nat)) : Data :=
  "\x7b" ++ String.intercalate ","
    (l.map (fun p => jstr p.1 ++ ":" ++ toString p.2)) ++ "\x7d"

/-- Digit character of n mod 10. -/
def digitChar (n : Nat) : Char := Char.ofNat (48 + n % 10)

/-- Model of time.Now().Format with layout 15:04:05, from a clock value in
seconds: always an eight-character HH:MM:SS string. -/
def formatClock (t : Nat) : String :=
  ⟨[digitChar (t / 3600 % 24 / 10), digitChar (t / 3600 % 24), ':',
    digitChar (t / 60 % 60 / 10), digitChar (t / 60 % 60), ':',
    digitChar (t % 60 / 10), digitChar (t % 60)]⟩

/-- The system notice built by addClientToRoom. -/
def joinMsg (c : Client) (t : Nat) : Message :=
  ⟨"system", c.Room, "", c.Username ++ " joined the room", formatClock t⟩

/-- The system notice built by removeClientFromRoom. -/
def leaveMsg (c : Client) (t : Nat) : Message :=
  ⟨"system", c.Room, "", c.Username ++ " left the room", formatClock t⟩

/-- The default-branch reply of handleCommand. -/
def unknownReply : Message :=
  ⟨MsgSystem, "", "", "Unknown command. Available commands: /users, /stats, /rooms", ""⟩

/-- The reply of handleCommand when the requester's room is absent. -/
def noRoomReply : Message :=
  ⟨MsgSystem, "", "", "Room does not exist.", ""⟩

/-- Result of the fan-out loop of broadcastToRoom: the surviving membership,
the updated channels, and whether a send on a closed channel occurred (a Go
panic, which freezes the state at that point). -/
structure DeliverResult where
  members : List Client
  chans : List (Client × Chan)
  panicked : Bool
  deriving DecidableEq, Repr

/-- The loop body of broadcastToRoom: for each member, a select with default
on the member's Send channel; a full channel means close it and delete the
member; a closed channel means the send statement panics. -/
def deliver (data : Data) : List Client → List (Client × Chan) → DeliverResult
  | [], chans => ⟨[], chans, false⟩
  | c :: rest, chans =>
      let ch := getChan chans c
      if ch.closed then ⟨c :: rest, chans, true⟩
      else if ch.buf.length < ch.cap then
        let r := deliver data rest
          (setChan chans c { ch with buf := ch.buf ++ [data] })
        ⟨c :: r.members, r.chans, r.panicked⟩
      else
        deliver data rest (setChan chans c (closeChan ch))

/-- Hub.broadcastToRoom: look up the room, serialize the message once, then
non-blocking-send to every member, evicting members with full queues. -/
def broadcastToRoom (s : HubState) (roomName : String) (msg : Message) :
    HubState :=
  match lookupRoom s.rooms roomName with
  | none => s
  | some ms =>
      let r := deliver (marshalMessage msg) ms s.chans
      { s with rooms := setRoom s.rooms roomName r.members,
               chans := r.chans,
               panicked := s.panicked || r.panicked }

/-- Hub.sendToClient: serialize, then a select with default on the client's
Send channel; a full channel is closed (the client stays in its room). -/
def sendToClient (s : HubState) (c : Client) (msg : Message) : HubState :=
  let data := marshalMessage msg
  let ch := getChan s.chans c
  if ch.closed then { s with panicked := true }
  else if ch.buf.length < ch.cap then
    { s with chans := setChan s.chans c { ch with buf := ch.buf ++ [data] } }
  else
    { s with chans := setChan s.chans c (closeChan ch) }

/-- The tail of Hub.removeClientFromRoom: delete the room from the directory
when its membership is now empty. -/
def unregCleanup (s2 : HubState) (name : String) : HubState :=
  match lookupRoom s2.rooms name with
  | none => s2
  | some ms2 =>
      if ms2.isEmpty then { s2 with rooms := removeRoom s2.rooms name }
      else s2

/-- Hub.removeClientFromRoom: look up the client's room (absent: return);
if the client is a member, delete it and close its Send channel (a close of
an already-closed channel is a Go panic); broadcast the leave notice; delete
the room if its membership is now empty. -/
def removeClientFromRoom (s : HubState) (c : Client) (t : Nat) : HubState :=
  match lookupRoom s.rooms c.Room with
  | none => s
  | some ms =>
      let s1 :=
        if c ∈ ms then
          { s with rooms := setRoom s.rooms c.Room (ms.erase c),
                   chans := setChan s.chans c (closeChan (getChan s.chans c)),
                   panicked := s.panicked || (getChan s.chans c).closed }
        else s
      unregCleanup (broadcastToRoom s1 c.Room (leaveMsg c t)) c.Room

/-- Hub.addClientToRoom: get or create the room, add the client to the
membership set, then broadcast the join notice to the room. -/
def addClientToRoom (s : HubState) (c : Client) (t : Nat) : HubState :=
  let ms := (lookupRoom s.rooms c.Room).getD []
  let ms2 := if c ∈ ms then ms else ms ++ [c]
  let s1 := { s with rooms := setRoom s.rooms c.Room ms2 }
  broadcastToRoom s1 c.Room (joinMsg c t)

/-- The Send channel handleWebSocket creates: make(chan []byte, 256). -/
def newSendChan : Chan := ⟨[], 256, false, 0⟩

/-- Registration of a session: handleWebSocket creates the client with a
fresh 256-slot Send channel and hands it to the Hub, which runs
addClientToRoom. -/
def registerClient (s : HubState) (c : Client) (t : Nat) : HubState :=
  addClientToRoom { s with chans := setChan s.chans c newSendChan } c t

/-- Hub.handleCommand: look up the requester's room (absent: a direct,
blocking send of the error reply on the requester's channel); otherwise
dispatch on the exact command text and reply to the requester via
sendToClient. -/
def handleCommand (s : HubState) (c : Client) (cmd : String) (t : Nat) :
    HubState :=
  match lookupRoom s.rooms c.Room with
  | none =>
      let data := marshalMessage noRoomReply
      let ch := getChan s.chans c
      if ch.closed then { s with panicked := true }
      else if ch.buf.length < ch.cap then
        { s with chans := setChan s.chans c { ch with buf := ch.buf ++ [data] } }
      else { s with blocked := true }
  | some ms =>
      let userCount := s.rooms.map (fun p => (p.1, p.2.length))
      if cmd = "/users" then
        sendToClient s c
          ⟨MsgUserList, c.Room, c.Username,
            String.intercalate ", " (ms.map Client.Username), formatClock t⟩
      else if cmd = "/stats" then
        sendToClient s c
          ⟨MsgStats, c.Room, c.Username,
            marshalStats (userCount.map Prod.snd).sum s.rooms.length,
            formatClock t⟩
      else if cmd = "/rooms" then
        sendToClient s c
          ⟨MsgRoom, c.Room, c.Username, marshalCounts userCount, formatClock t⟩
      else
        sendToClient s c unknownReply

/-- The metadata stamping of Client.readPump on a chat frame. -/
def stampChat (c : Client) (m : Message) (t : Nat) : Message :=
  { m with Username := c.Username, Room := c.Room, MType := "chat",
           Time := formatClock t }

/-- strings.HasPrefix(text, "/"): the text begins with the command marker. -/
def startsWithSlash (str : String) : Bool :=
  match str.data with
  | [] => false
  | ch :: _ => ch = '/'

/-- One iteration of Client.readPump after a successful frame read, given
the result of json.Unmarshal: a decode failure is discarded; a text starting
with the command marker goes to handleCommand; otherwise the stamped chat
message is broadcast to the session's room. -/
def readPumpStep (s : HubState) (c : Client) (decoded : Option Message)
    (t : Nat) : HubState :=
  match decoded with
  | none => s
  | some m =>
      if startsWithSlash m.Text then handleCommand s c m.Text t
      else broadcastToRoom s c.Room (stampChat c m t)

/-- Whitespace test of strings.TrimSpace (unicode.IsSpace). -/
def isSpace (ch : Char) : Bool := ch.isWhitespace

/-- strings.TrimSpace: remove trailing then leading whitespace. -/
def trimSpace (str : String) : String :=
  ⟨((str.data.reverse.dropWhile isSpace).reverse).dropWhile isSpace⟩

/-- The parameter validation of handleWebSocket: reject when username or the
(untrimmed) room query parameter is empty, then trim the room and build the
client with ID username-unixtime. -/
def handleWebSocketAccept (username room : String) (t : Nat) : Option Client :=
  if username = "" || room = "" then none
  else some ⟨username ++ "-" ++ toString t, username, trimSpace room⟩

/-- The operations of the Hub run loop together with broadcast, for stating
properties of whole operation sequences. -/
inductive HubOp where
  | reg (c : Client) (t : Nat)
  | unreg (c : Client) (t : Nat)
  | bcast (name : String) (msg : Message)
  deriving DecidableEq, Repr

/-- Apply one operation. -/
def runOp (s : HubState) : HubOp → HubState
  | .reg c t => registerClient s c t
  | .unreg c t => removeClientFromRoom s c t
  | .bcast n m => broadcastToRoom s n m

/-- Apply a sequence of operations. -/
def runOps (s : HubState) (ops : List HubOp) : HubState := ops.foldl runOp s

/-- Register or unregister (the Hub intake channels, no broadcast). -/
def isRegOrUnreg : HubOp → Bool
  | .bcast _ _ => false
  | _ => true

/-- A concrete client of room r, for executions built from the empty hub. -/
def cA : Client := ⟨"alice-0", "alice", "r"⟩

/-- A second concrete client of room r. -/
def cB : Client := ⟨"bob-1", "bob", "r"⟩

/-- A concrete chat message for room r. -/
def chatM : Message := ⟨MsgChat, "r", "alice", "hi", "00:00:00"⟩

/-- The hub after registering cA and broadcasting 255 chat messages to room
r: together with the join notice, cA's 256-slot queue is exactly full. -/
def sFull : HubState :=
  runOps hub0 (HubOp.reg cA 0 :: List.replicate 255 (HubOp.bcast "r" chatM))

/-- One more broadcast on the full queue: cA is evicted by the full-queue
path of broadcastToRoom. -/
def sEvicted : HubState := broadcastToRoom sFull "r" chatM

/-- Register cA and cB, then unregister cA: cA's session is fully removed,
cB remains the sole member of room r. -/
def s3pre : HubState :=
  runOps hub0 [HubOp.reg cA 0, HubOp.reg cB 1, HubOp.unreg cA 2]

/-- A concrete member of room g with a roomy queue. -/
def wA : Client := ⟨"a-1", "ann", "g"⟩

/-- A second concrete member of room g. -/
def wB : Client := ⟨"b-1", "ben", "g"⟩

/-- A concrete client of room g that is not a member of it. -/
def wC : Client := ⟨"c-1", "cyd", "g"⟩

/-- A small hub: room g with members wA and wB, both queues open with
capacity 4. -/
def wS : HubState :=
  ⟨[("g", [wA, wB])], [(wA, ⟨[], 4, false, 0⟩), (wB, ⟨[], 4, false, 0⟩)],
    false, false⟩

/-- A small hub where wA's queue is open but full (capacity 1, one queued
payload) and wB's queue is roomy. -/
def wSfull : HubState :=
  ⟨[("g", [wA, wB])], [(wA, ⟨["x"], 1, false, 0⟩), (wB, ⟨[], 4, false, 0⟩)],
    false, false⟩

/-- A concrete message for room g. -/
def wM : Message := ⟨MsgChat, "g", "ann", "hello", "00:00:01"⟩

/-- A concrete inbound frame whose client-supplied type, room, username and
time are all bogus. -/
def wM6 : Message := ⟨"bogus", "elsewhere", "mallory", "hello", "faketime"⟩

/-- A concrete inbound command frame: slash-marked text that matches no
dispatch case exactly. -/
def wM10 : Message := ⟨"", "", "", "/USERS", ""⟩

/-! ### Association-list lemmas -/

theorem getChan_setChan_self (chans : List (Client × Chan)) (c : Client)
    (ch : Chan) : getChan (setChan chans c ch) c = ch := by
  induction chans with
  | nil => simp [getChan, setChan]
  | cons p rest ih =>
      obtain ⟨x, och⟩ := p
      by_cases h : x = c
      · simp [setChan, getChan, h]
      · simp [setChan, getChan, h, ih]

theorem getChan_setChan_ne (chans : List (Client × Chan)) (c x : Client)
    (ch : Chan) (h : x ≠ c) :
    getChan (setChan chans c ch) x = getChan chans x := by
  induction chans with
  | nil => simp [getChan, setChan, Ne.symm h]
  | cons p rest ih =>
      obtain ⟨y, och⟩ := p
      by_cases hy : y = c
      · subst hy
        simp [setChan, getChan, Ne.symm h]
      · simp [setChan, getChan, hy, ih]

theorem lookupRoom_setRoom_self (rooms : List (String × List Client))
    (n : String) (ms : List Client) :
    lookupRoom (setRoom rooms n ms) n = some ms := by
  induction rooms with
  | nil => simp [lookupRoom, setRoom]
  | cons p rest ih =>
      obtain ⟨k, v⟩ := p
      by_cases h : k = n
      · simp [setRoom, lookupRoom, h]
      · simp [setRoom, lookupRoom, h, ih]

theorem lookupRoom_setRoom_ne (rooms : List (String × List Client))
    (n m : String) (ms : List Client) (h : m ≠ n) :
    lookupRoom (setRoom rooms n ms) m = lookupRoom rooms m := by
  induction rooms with
  | nil => simp [lookupRoom, setRoom, Ne.symm h]
  | cons p rest ih =>
      obtain ⟨k, v⟩ := p
      by_cases hk : k = n
      · subst hk
        simp [setRoom, lookupRoom, Ne.symm h]
      · simp [setRoom, lookupRoom, hk, ih]

theorem setRoom_setRoom (rooms : List (String × List Client)) (n : String)
    (a b : List Client) :
    setRoom (setRoom rooms n a) n b = setRoom rooms n b := by
  induction rooms with
  | nil => simp [setRoom]
  | cons p rest ih =>
      obtain ⟨k, v⟩ := p
      by_cases h : k = n
      · simp [setRoom, h]
      · simp [setRoom, h, ih]

theorem removeRoom_setRoom (rooms : List (String × List Client)) (n : String)
    (a : List Client) :
    removeRoom (setRoom rooms n a) n = removeRoom rooms n := by
  induction rooms with
  | nil => simp [setRoom, removeRoom]
  | cons p rest ih =>
      obtain ⟨k, v⟩ := p
      by_cases h : k = n
      · simp [setRoom, removeRoom, h]
      · simp [setRoom, removeRoom, h, ih]

theorem lookupRoom_removeRoom_ne (rooms : List (String × List Client))
    (n m : String) (h : m ≠ n) :
    lookupRoom (removeRoom rooms n) m = lookupRoom rooms m := by
  induction rooms with
  | nil => simp [removeRoom]
  | cons p rest ih =>
      obtain ⟨k, v⟩ := p
      by_cases hk : k = n
      · subst hk
        simp [removeRoom, lookupRoom, Ne.symm h]
      · simp [removeRoom, lookupRoom, hk, ih]

theorem lookupRoom_mem (rooms : List (String × List Client)) (n : String)
    (ms : List Client) (h : lookupRoom rooms n = some ms) :
    (n, ms) ∈ rooms := by
  induction rooms with
  | nil => simp [lookupRoom] at h
  | cons p rest ih =>
      obtain ⟨k, v⟩ := p
      by_cases hk : k = n
      · subst hk
        simp [lookupRoom] at h
        simp [h]
      · simp [lookupRoom, hk] at h
        exact List.mem_cons_of_mem _ (ih h)

/-- Distinctness of the directory keys, stated pairwise. -/
def KeysNodup (rooms : List (String × List Client)) : Prop :=
  rooms.Pairwise (fun p q => p.1 ≠ q.1)

theorem mem_setRoom_weak (rooms : List (String × List Client)) (n : String)
    (ms : List Client) (p : String × List Client)
    (hp : p ∈ setRoom rooms n ms) : p ∈ rooms ∨ p.1 = n := by
  induction rooms with
  | nil =>
      simp [setRoom] at hp
      simp [hp]
  | cons q rest ih =>
      obtain ⟨k, v⟩ := q
      by_cases hk : k = n
      · subst hk
        rcases List.mem_cons.mp (by simpa [setRoom] using hp) with h | h
        · simp [h]
        · exact Or.inl (List.mem_cons_of_mem _ h)
      · rcases List.mem_cons.mp (by simpa [setRoom, hk] using hp) with h | h
        · simp [h]
        · rcases ih h with h2 | h2
          · exact Or.inl (List.mem_cons_of_mem _ h2)
          · exact Or.inr h2

theorem mem_removeRoom_weak (rooms : List (String × List Client)) (n : String)
    (p : String × List Client) (hp : p ∈ removeRoom rooms n) : p ∈ rooms := by
  induction rooms with
  | nil => simp [removeRoom] at hp
  | cons q rest ih =>
      obtain ⟨k, v⟩ := q
      by_cases hk : k = n
      · subst hk
        simp [removeRoom] at hp
        exact List.mem_cons_of_mem _ hp
      · rcases List.mem_cons.mp (by simpa [removeRoom, hk] using hp) with h | h
        · simp [h]
        · exact List.mem_cons_of_mem _ (ih h)

theorem keysNodup_setRoom (rooms : List (String × List Client)) (n : String)
    (ms : List Client) (h : KeysNodup rooms) : KeysNodup (setRoom rooms n ms) := by
  induction rooms with
  | nil => simp [setRoom, KeysNodup]
  | cons q rest ih =>
      obtain ⟨k, v⟩ := q
      rw [KeysNodup, List.pairwise_cons] at h
      by_cases hk : k = n
      · subst hk
        have e : setRoom ((k, v) :: rest) k ms = (k, ms) :: rest := by
          simp [setRoom]
        rw [KeysNodup, e, List.pairwise_cons]
        exact ⟨fun b hb => h.1 b hb, h.2⟩
      · rw [KeysNodup]
        simp only [setRoom, if_neg hk]
        rw [List.pairwise_cons]
        refine ⟨fun b hb => ?_, ih h.2⟩
        rcases mem_setRoom_weak rest n ms b hb with h2 | h2
        · exact h.1 b h2
        · simpa [h2] using hk

theorem keysNodup_removeRoom (rooms : List (String × List Client)) (n : String)
    (h : KeysNodup rooms) : KeysNodup (removeRoom rooms n) := by
  induction rooms with
  | nil => simp [removeRoom, KeysNodup]
  | cons q rest ih =>
      obtain ⟨k, v⟩ := q
      rw [KeysNodup, List.pairwise_cons] at h
      by_cases hk : k = n
      · subst hk
        simpa [removeRoom, KeysNodup] using h.2
      · rw [KeysNodup]
        simp only [removeRoom, if_neg hk]
        rw [List.pairwise_cons]
        exact ⟨fun b hb => h.1 b (mem_removeRoom_weak rest n b hb), ih h.2⟩

theorem mem_setRoom_cases (rooms : List (String × List Client)) (n : String)
    (ms : List Client) (p : String × List Client)
    (hk : KeysNodup rooms) (hp : p ∈ setRoom rooms n ms) :
    p = (n, ms) ∨ (p ∈ rooms ∧ p.1 ≠ n) := by
  induction rooms with
  | nil =>
      simp [setRoom] at hp
      simp [hp]
  | cons q rest ih =>
      obtain ⟨k, v⟩ := q
      rw [KeysNodup, List.pairwise_cons] at hk
      by_cases hkn : k = n
      · subst hkn
        rcases List.mem_cons.mp (by simpa [setRoom] using hp) with h | h
        · simp [h]
        · exact Or.inr ⟨List.mem_cons_of_mem _ h, Ne.symm (hk.1 p h)⟩
      · rcases List.mem_cons.mp (by simpa [setRoom, hkn] using hp) with h | h
        · exact Or.inr ⟨by simp [h], by simp [h, hkn]⟩
        · rcases ih hk.2 h with h2 | h2
          · exact Or.inl h2
          · exact Or.inr ⟨List.mem_cons_of_mem _ h2.1, h2.2⟩

theorem mem_removeRoom_cases (rooms : List (String × List Client))
    (n : String) (p : String × List Client)
    (hk : KeysNodup rooms) (hp : p ∈ removeRoom rooms n) :
    p ∈ rooms ∧ p.1 ≠ n := by
  induction rooms with
  | nil => simp [removeRoom] at hp
  | cons q rest ih =>
      obtain ⟨k, v⟩ := q
      rw [KeysNodup, List.pairwise_cons] at hk
      by_cases hkn : k = n
      · subst hkn
        simp [removeRoom] at hp
        exact ⟨List.mem_cons_of_mem _ hp, Ne.symm (hk.1 p hp)⟩
      · rcases List.mem_cons.mp (by simpa [removeRoom, hkn] using hp) with h | h
        · exact ⟨by simp [h], by simp [h, hkn]⟩
        · rcases ih hk.2 h with ⟨h1, h2⟩
          exact ⟨List.mem_cons_of_mem _ h1, h2⟩

/-! ### Fan-out (deliver) lemmas -/

theorem deliver_cons_closed (data : Data) (c : Client) (rest : List Client)
    (chans : List (Client × Chan)) (hcl : (getChan chans c).closed = true) :
    deliver data (c :: rest) chans = ⟨c :: rest, chans, true⟩ := by
  simp [deliver, hcl]

theorem deliver_cons_enqueue (data : Data) (c : Client) (rest : List Client)
    (chans : List (Client × Chan)) (hcl : (getChan chans c).closed = false)
    (hlt : (getChan chans c).buf.length < (getChan chans c).cap) :
    deliver data (c :: rest) chans =
      ⟨c :: (deliver data rest (setChan chans c
          { getChan chans c with buf := (getChan chans c).buf ++ [data] })).members,
        (deliver data rest (setChan chans c
          { getChan chans c with buf := (getChan chans c).buf ++ [data] })).chans,
        (deliver data rest (setChan chans c
          { getChan chans c with buf := (getChan chans c).buf ++ [data] })).panicked⟩ := by
  simp [deliver, hcl, hlt]

theorem deliver_cons_evict (data : Data) (c : Client) (rest : List Client)
    (chans : List (Client × Chan)) (hcl : (getChan chans c).closed = false)
    (hnlt : ¬ (getChan chans c).buf.length < (getChan chans c).cap) :
    deliver data (c :: rest) chans =
      deliver data rest (setChan chans c (closeChan (getChan chans c))) := by
  simp [deliver, hcl, hnlt]

theorem deliver_chans_notMem (data : Data) :
    ∀ (ms : List Client) (chans : List (Client × Chan)) (x : Client),
      x ∉ ms → getChan (deliver data ms chans).chans x = getChan chans x := by
  intro ms
  induction ms with
  | nil => intro chans x _; simp [deliver]
  | cons c rest ih =>
      intro chans x hx
      have hxc : x ≠ c := fun h => hx (h ▸ List.mem_cons_self c rest)
      have hxr : x ∉ rest := fun h => hx (List.mem_cons_of_mem c h)
      by_cases hcl : (getChan chans c).closed = true
      · rw [deliver_cons_closed data c rest chans hcl]
      · have hcl2 : (getChan chans c).closed = false := by
          simpa using hcl
        by_cases hlt : (getChan chans c).buf.length < (getChan chans c).cap
        · rw [deliver_cons_enqueue data c rest chans hcl2 hlt]
          rw [ih _ x hxr, getChan_setChan_ne _ _ _ _ hxc]
        · rw [deliver_cons_evict data c rest chans hcl2 hlt]
          rw [ih _ x hxr, getChan_setChan_ne _ _ _ _ hxc]

theorem deliver_panic_of_closed (data : Data) :
    ∀ (ms : List Client) (chans : List (Client × Chan)) (c : Client),
      c ∈ ms → (getChan chans c).closed = true →
      (deliver data ms chans).panicked = true := by
  intro ms
  induction ms with
  | nil => intro chans c hc _; simp at hc
  | cons x rest ih =>
      intro chans c hc hcl
      by_cases hx : (getChan chans x).closed = true
      · rw [deliver_cons_closed data x rest chans hx]
      · have hx2 : (getChan chans x).closed = false := by simpa using hx
        have hcx : c ≠ x := by
          intro h
          subst h
          exact hx hcl
        have hcr : c ∈ rest := by
          rcases List.mem_cons.mp hc with h | h
          · exact absurd h hcx
          · exact h
        by_cases hlt : (getChan chans x).buf.length < (getChan chans x).cap
        · rw [deliver_cons_enqueue data x rest chans hx2 hlt]
          exact ih _ c hcr (by rw [getChan_setChan_ne _ _ _ _ hcx]; exact hcl)
        · rw [deliver_cons_evict data x rest chans hx2 hlt]
          exact ih _ c hcr (by rw [getChan_setChan_ne _ _ _ _ hcx]; exact hcl)

theorem deliver_spec (data : Data) :
    ∀ (ms : List Client) (chans : List (Client × Chan)),
      ms.Nodup → (∀ x ∈ ms, (getChan chans x).closed = false) →
      (deliver data ms chans).panicked = false ∧
      (deliver data ms chans).members =
        ms.filter (fun x =>
          decide ((getChan chans x).buf.length < (getChan chans x).cap)) ∧
      (∀ x ∈ ms, (getChan chans x).buf.length < (getChan chans x).cap →
        getChan (deliver data ms chans).chans x =
          { getChan chans x with buf := (getChan chans x).buf ++ [data] }) ∧
      (∀ x ∈ ms, ¬ (getChan chans x).buf.length < (getChan chans x).cap →
        getChan (deliver data ms chans).chans x =
          closeChan (getChan chans x)) := by
  intro ms
  induction ms with
  | nil =>
      intro chans _ _
      refine ⟨by simp [deliver], by simp [deliver], by simp, by simp⟩
  | cons c rest ih =>
      intro chans hnd hop
      obtain ⟨hcr, hndr⟩ := List.nodup_cons.mp hnd
      have hcop : (getChan chans c).closed = false :=
        hop c (List.mem_cons_self c rest)
      by_cases hfull : (getChan chans c).buf.length < (getChan chans c).cap
      · rw [deliver_cons_enqueue data c rest chans hcop hfull]
        have hgc : ∀ x ∈ rest,
            getChan (setChan chans c
              { getChan chans c with buf := (getChan chans c).buf ++ [data] }) x =
            getChan chans x := by
          intro x hx
          exact getChan_setChan_ne _ _ _ _ (fun h => hcr (h ▸ hx))
        have hop2 : ∀ x ∈ rest,
            (getChan (setChan chans c
              { getChan chans c with buf := (getChan chans c).buf ++ [data] }) x).closed
              = false := by
          intro x hx
          rw [hgc x hx]
          exact hop x (List.mem_cons_of_mem c hx)
        obtain ⟨ihp, ihm, ihe, ihc⟩ := ih _ hndr hop2
        refine ⟨ihp, ?_, ?_, ?_⟩
        · show c :: _ = _
          rw [ihm, List.filter_cons]
          have hpc : decide ((getChan chans c).buf.length < (getChan chans c).cap)
              = true := by simpa using hfull
          rw [if_pos (by simp [hpc])]
          congr 1
          apply List.filter_congr
          intro x hx
          rw [hgc x hx]
        · intro x hx hxlt
          rcases List.mem_cons.mp hx with hxeq | hxr
          · subst hxeq
            show getChan (deliver data rest _).chans x = _
            rw [deliver_chans_notMem data rest _ x hcr, getChan_setChan_self]
          · show getChan (deliver data rest _).chans x = _
            rw [ihe x hxr (by rw [hgc x hxr]; exact hxlt), hgc x hxr]
        · intro x hx hxnlt
          rcases List.mem_cons.mp hx with hxeq | hxr
          · subst hxeq
            exact absurd hfull hxnlt
          · show getChan (deliver data rest _).chans x = _
            rw [ihc x hxr (by rw [hgc x hxr]; exact hxnlt), hgc x hxr]
      · rw [deliver_cons_evict data c rest chans hcop hfull]
        have hgc : ∀ x ∈ rest,
            getChan (setChan chans c (closeChan (getChan chans c))) x =
            getChan chans x := by
          intro x hx
          exact getChan_setChan_ne _ _ _ _ (fun h => hcr (h ▸ hx))
        have hop3 : ∀ x ∈ rest,
            (getChan (setChan chans c (closeChan (getChan chans c))) x).closed
              = false := by
          intro x hx
          rw [hgc x hx]
          exact hop x (List.mem_cons_of_mem c hx)
        obtain ⟨ihp, ihm, ihe, ihc⟩ := ih _ hndr hop3
        refine ⟨ihp, ?_, ?_, ?_⟩
        · rw [ihm, List.filter_cons]
          have hpc : decide ((getChan chans c).buf.length < (getChan chans c).cap)
              = false := by simpa using hfull
          rw [if_neg (by simp [hpc])]
          apply List.filter_congr
          intro x hx
          rw [hgc x hx]
        · intro x hx hxlt
          rcases List.mem_cons.mp hx with hxeq | hxr
          · subst hxeq
            exact absurd hxlt hfull
          · rw [ihe x hxr (by rw [hgc x hxr]; exact hxlt), hgc x hxr]
        · intro x hx hxnlt
          rcases List.mem_cons.mp hx with hxeq | hxr
          · subst hxeq
            rw [deliver_chans_notMem data rest _ x hcr, getChan_setChan_self]
          · rw [ihc x hxr (by rw [hgc x hxr]; exact hxnlt), hgc x hxr]

/-! ### broadcastToRoom and unregCleanup lemmas -/

theorem broadcastToRoom_absent (s : HubState) (name : String) (msg : Message)
    (h : lookupRoom s.rooms name = none) : broadcastToRoom s name msg = s := by
  simp [broadcastToRoom, h]

theorem broadcastToRoom_lookup_ne (s : HubState) (name : String)
    (msg : Message) (m : String) (h : m ≠ name) :
    lookupRoom (broadcastToRoom s name msg).rooms m = lookupRoom s.rooms m := by
  cases hlk : lookupRoom s.rooms name with
  | none => simp [broadcastToRoom, hlk]
  | some ms => simp [broadcastToRoom, hlk, lookupRoom_setRoom_ne _ _ _ _ h]

theorem broadcastToRoom_chans_notMem (s : HubState) (name : String)
    (msg : Message) (ms : List Client)
    (hms : lookupRoom s.rooms name = some ms) (x : Client) (hx : x ∉ ms) :
    getChan (broadcastToRoom s name msg).chans x = getChan s.chans x := by
  simp only [broadcastToRoom, hms]
  exact deliver_chans_notMem _ ms s.chans x hx

theorem broadcastToRoom_panicked_true (s : HubState) (name : String)
    (msg : Message) (h : s.panicked = true) :
    (broadcastToRoom s name msg).panicked = true := by
  cases hlk : lookupRoom s.rooms name with
  | none => simpa [broadcastToRoom, hlk] using h
  | some ms => simp [broadcastToRoom, hlk, h]

theorem broadcastToRoom_spec (s : HubState) (name : String) (msg : Message)
    (ms : List Client) (hms : lookupRoom s.rooms name = some ms)
    (hnd : ms.Nodup) (hop : ∀ x ∈ ms, (getChan s.chans x).closed = false) :
    (broadcastToRoom s name msg).rooms =
      setRoom s.rooms name (ms.filter (fun x =>
        decide ((getChan s.chans x).buf.length < (getChan s.chans x).cap))) ∧
    (broadcastToRoom s name msg).panicked = s.panicked ∧
    (broadcastToRoom s name msg).blocked = s.blocked ∧
    (∀ x, x ∉ ms →
      getChan (broadcastToRoom s name msg).chans x = getChan s.chans x) ∧
    (∀ x ∈ ms, (getChan s.chans x).buf.length < (getChan s.chans x).cap →
      getChan (broadcastToRoom s name msg).chans x =
        { getChan s.chans x with
            buf := (getChan s.chans x).buf ++ [marshalMessage msg] }) ∧
    (∀ x ∈ ms, ¬ (getChan s.chans x).buf.length < (getChan s.chans x).cap →
      getChan (broadcastToRoom s name msg).chans x =
        closeChan (getChan s.chans x)) := by
  obtain ⟨hp, hm, he, hc⟩ := deliver_spec (marshalMessage msg) ms s.chans hnd hop
  refine ⟨?_, ?_, ?_, ?_, ?_, ?_⟩
  · simp only [broadcastToRoom, hms]
    rw [hm]
  · simp only [broadcastToRoom, hms]
    simp [hp]
  · simp only [broadcastToRoom, hms]
  · intro x hx
    simp only [broadcastToRoom, hms]
    exact deliver_chans_notMem _ ms s.chans x hx
  · intro x hx hlt
    simp only [broadcastToRoom, hms]
    exact he x hx hlt
  · intro x hx hnlt
    simp only [broadcastToRoom, hms]
    exact hc x hx hnlt

theorem unregCleanup_chans (s2 : HubState) (name : String) :
    (unregCleanup s2 name).chans = s2.chans := by
  cases hlk : lookupRoom s2.rooms name with
  | none => simp [unregCleanup, hlk]
  | some ms2 => by_cases h : ms2.isEmpty <;> simp [unregCleanup, hlk, h]

theorem unregCleanup_panicked (s2 : HubState) (name : String) :
    (unregCleanup s2 name).panicked = s2.panicked := by
  cases hlk : lookupRoom s2.rooms name with
  | none => simp [unregCleanup, hlk]
  | some ms2 => by_cases h : ms2.isEmpty <;> simp [unregCleanup, hlk, h]

/-! ### The directory invariant and its preservation -/

/-- The well-formedness invariant of Hub states reachable through the Hub
intake channels: directory keys are distinct, every directory entry has a
non-empty, duplicate-free membership whose members belong to that room by
name and have open Send channels. -/
def Inv (s : HubState) : Prop :=
  KeysNodup s.rooms ∧
  ∀ p ∈ s.rooms, p.2 ≠ [] ∧ p.2.Nodup ∧
    ∀ c ∈ p.2, c.Room = p.1 ∧ (getChan s.chans c).closed = false

theorem Inv_hub0 : Inv hub0 := by
  refine ⟨?_, ?_⟩ <;> simp [hub0, KeysNodup]

/-- Broadcasting to a well-formed room and then deleting it if empty
preserves the invariant, whatever the room's current membership is. -/
theorem Inv_bcastCleanup (s1 : HubState) (name : String) (msg : Message)
    (ms1 : List Client)
    (hk : KeysNodup s1.rooms)
    (hms : lookupRoom s1.rooms name = some ms1)
    (hnd : ms1.Nodup)
    (hcoh : ∀ x ∈ ms1, x.Room = name)
    (hop : ∀ x ∈ ms1, (getChan s1.chans x).closed = false)
    (hothers : ∀ p ∈ s1.rooms, p.1 ≠ name → p.2 ≠ [] ∧ p.2.Nodup ∧
      ∀ x ∈ p.2, x.Room = p.1 ∧ (getChan s1.chans x).closed = false) :
    Inv (unregCleanup (broadcastToRoom s1 name msg) name) := by
  obtain ⟨hrooms2, hpan, hblk, hunch, henq, hcls⟩ :=
    broadcastToRoom_spec s1 name msg ms1 hms hnd hop
  have hnotmem : ∀ (x : Client), x.Room ≠ name → x ∉ ms1 := by
    intro x hx hmem
    exact hx (hcoh x hmem)
  have hlk2 : lookupRoom (broadcastToRoom s1 name msg).rooms name =
      some (ms1.filter (fun x =>
        decide ((getChan s1.chans x).buf.length < (getChan s1.chans x).cap))) := by
    rw [hrooms2]
    exact lookupRoom_setRoom_self _ _ _
  have hchans2 : (unregCleanup (broadcastToRoom s1 name msg) name).chans =
      (broadcastToRoom s1 name msg).chans := unregCleanup_chans _ _
  have hopfilter : ∀ x ∈ ms1.filter (fun x =>
      decide ((getChan s1.chans x).buf.length < (getChan s1.chans x).cap)),
      (getChan (broadcastToRoom s1 name msg).chans x).closed = false := by
    intro x hx
    obtain ⟨hxm, hxp⟩ := List.mem_filter.mp hx
    rw [henq x hxm (of_decide_eq_true hxp)]
    exact hop x hxm
  by_cases hemp : (ms1.filter (fun x =>
      decide ((getChan s1.chans x).buf.length < (getChan s1.chans x).cap))).isEmpty
  · have hun : unregCleanup (broadcastToRoom s1 name msg) name =
        { broadcastToRoom s1 name msg with
            rooms := removeRoom (broadcastToRoom s1 name msg).rooms name } := by
      simp [unregCleanup, hlk2, hemp]
    rw [hun]
    refine ⟨?_, ?_⟩
    · show KeysNodup (removeRoom (broadcastToRoom s1 name msg).rooms name)
      rw [hrooms2, removeRoom_setRoom]
      exact keysNodup_removeRoom _ _ hk
    · intro p hp
      have hp2 : p ∈ removeRoom s1.rooms name := by
        rw [hrooms2, removeRoom_setRoom] at hp
        exact hp
      obtain ⟨hpmem, hpne⟩ := mem_removeRoom_cases _ _ _ hk hp2
      obtain ⟨h1, h2, h3⟩ := hothers p hpmem hpne
      refine ⟨h1, h2, fun x hx => ⟨(h3 x hx).1, ?_⟩⟩
      show (getChan (broadcastToRoom s1 name msg).chans x).closed = false
      rw [hunch x (hnotmem x (by rw [(h3 x hx).1]; exact hpne))]
      exact (h3 x hx).2
  · have hun : unregCleanup (broadcastToRoom s1 name msg) name =
        broadcastToRoom s1 name msg := by
      simp [unregCleanup, hlk2, hemp]
    rw [hun]
    refine ⟨?_, ?_⟩
    · show KeysNodup (broadcastToRoom s1 name msg).rooms
      rw [hrooms2]
      exact keysNodup_setRoom _ _ _ hk
    · intro p hp
      rw [hrooms2] at hp
      rcases mem_setRoom_cases _ _ _ p hk hp with hpeq | ⟨hpmem, hpne⟩
      · subst hpeq
        refine ⟨?_, hnd.filter _, fun x hx => ?_⟩
        · show ms1.filter _ ≠ []
          intro hnil
          rw [hnil] at hemp
          simp at hemp
        · obtain ⟨hxm, _⟩ := List.mem_filter.mp hx
          exact ⟨hcoh x hxm, hopfilter x hx⟩
      · obtain ⟨h1, h2, h3⟩ := hothers p hpmem hpne
        refine ⟨h1, h2, fun x hx => ⟨(h3 x hx).1, ?_⟩⟩
        rw [hunch x (hnotmem x (by rw [(h3 x hx).1]; exact hpne))]
        exact (h3 x hx).2

theorem Inv_registerClient (s : HubState) (c : Client) (t : Nat)
    (hInv : Inv s) : Inv (registerClient s c t) := by
  have hmsfacts : ∀ x ∈ (lookupRoom s.rooms c.Room).getD [],
      x.Room = c.Room ∧ (getChan s.chans x).closed = false := by
    intro x hx
    cases hlk : lookupRoom s.rooms c.Room with
    | none => rw [hlk] at hx; simp at hx
    | some l =>
        rw [hlk] at hx
        exact (hInv.2 (c.Room, l) (lookupRoom_mem _ _ _ hlk)).2.2 x hx
  have hmsnd : ((lookupRoom s.rooms c.Room).getD []).Nodup := by
    cases hlk : lookupRoom s.rooms c.Room with
    | none => simp
    | some l =>
        simpa using (hInv.2 (c.Room, l) (lookupRoom_mem _ _ _ hlk)).2.1
  have key : ∀ (s1 : HubState) (ms2 : List Client),
      s1.rooms = setRoom s.rooms c.Room ms2 →
      s1.chans = setChan s.chans c newSendChan →
      ms2.Nodup → (∀ x ∈ ms2, x.Room = c.Room) → c ∈ ms2 →
      (∀ x ∈ ms2, x ≠ c → (getChan s.chans x).closed = false) →
      Inv (broadcastToRoom s1 c.Room (joinMsg c t)) := by
    intro s1 ms2 h1 h2 hnd2 hcoh2 hcm hop0
    have hop1 : ∀ x ∈ ms2, (getChan s1.chans x).closed = false := by
      intro x hx
      rw [h2]
      by_cases hxc : x = c
      · subst hxc
        rw [getChan_setChan_self]
        rfl
      · rw [getChan_setChan_ne _ _ _ _ hxc]
        exact hop0 x hx hxc
    obtain ⟨hrooms2, hpan, hblk, hunch, henq, hcls⟩ :=
      broadcastToRoom_spec s1 c.Room (joinMsg c t) ms2
        (by rw [h1]; exact lookupRoom_setRoom_self _ _ _) hnd2 hop1
    have hgcc : getChan s1.chans c = newSendChan := by
      rw [h2]
      exact getChan_setChan_self _ _ _
    have hcsurv : c ∈ ms2.filter (fun x =>
        decide ((getChan s1.chans x).buf.length < (getChan s1.chans x).cap)) := by
      refine List.mem_filter.mpr ⟨hcm, ?_⟩
      rw [hgcc]
      decide
    refine ⟨?_, ?_⟩
    · show KeysNodup (broadcastToRoom s1 c.Room (joinMsg c t)).rooms
      rw [hrooms2, h1, setRoom_setRoom]
      exact keysNodup_setRoom _ _ _ hInv.1
    · intro p hp
      rw [hrooms2, h1, setRoom_setRoom] at hp
      rcases mem_setRoom_cases _ _ _ p hInv.1 hp with hpeq | ⟨hpmem, hpne⟩
      · subst hpeq
        refine ⟨List.ne_nil_of_mem hcsurv, hnd2.filter _, fun x hx => ?_⟩
        obtain ⟨hxm, hxp⟩ := List.mem_filter.mp hx
        refine ⟨hcoh2 x hxm, ?_⟩
        rw [henq x hxm (of_decide_eq_true hxp)]
        exact hop1 x hxm
      · obtain ⟨hp1, hp2, hp3⟩ := hInv.2 p hpmem
        refine ⟨hp1, hp2, fun x hx => ⟨(hp3 x hx).1, ?_⟩⟩
        have hxnot : x ∉ ms2 := fun hm =>
          hpne (((hp3 x hx).1).symm.trans (hcoh2 x hm))
        have hxnotc : x ≠ c := fun he => hxnot (he ▸ hcm)
        rw [hunch x hxnot, h2, getChan_setChan_ne _ _ _ _ hxnotc]
        exact (hp3 x hx).2
  have hun : registerClient s c t = broadcastToRoom
      { s with
          rooms := setRoom s.rooms c.Room
            (if c ∈ (lookupRoom s.rooms c.Room).getD []
              then (lookupRoom s.rooms c.Room).getD []
              else (lookupRoom s.rooms c.Room).getD [] ++ [c]),
          chans := setChan s.chans c newSendChan }
      c.Room (joinMsg c t) := rfl
  rw [hun]
  by_cases hc : c ∈ (lookupRoom s.rooms c.Room).getD []
  · rw [if_pos hc]
    refine key _ _ rfl rfl hmsnd (fun x hx => (hmsfacts x hx).1) hc
      (fun x hx _ => (hmsfacts x hx).2)
  · rw [if_neg hc]
    refine key _ _ rfl rfl ?_ ?_ (by simp) ?_
    · rw [List.nodup_append]
      refine ⟨hmsnd, List.nodup_singleton c, ?_⟩
      intro a ha hb
      simp at hb
      subst hb
      exact hc ha
    · intro x hx
      rcases List.mem_append.mp hx with h | h
      · exact (hmsfacts x h).1
      · simp at h
        subst h
        rfl
    · intro x hx hxc
      rcases List.mem_append.mp hx with h | h
      · exact (hmsfacts x h).2
      · simp at h
        exact absurd h hxc

theorem Inv_removeClientFromRoom (s : HubState) (c : Client) (t : Nat)
    (hInv : Inv s) : Inv (removeClientFromRoom s c t) := by
  cases hlk : lookupRoom s.rooms c.Room with
  | none =>
      have hun : removeClientFromRoom s c t = s := by
        simp [removeClientFromRoom, hlk]
      rw [hun]
      exact hInv
  | some ms =>
      obtain ⟨hne, hnd, hmem⟩ := hInv.2 (c.Room, ms) (lookupRoom_mem _ _ _ hlk)
      by_cases hc : c ∈ ms
      · have hun : removeClientFromRoom s c t =
            unregCleanup (broadcastToRoom
              { s with rooms := setRoom s.rooms c.Room (ms.erase c),
                       chans := setChan s.chans c (closeChan (getChan s.chans c)),
                       panicked := s.panicked || (getChan s.chans c).closed }
              c.Room (leaveMsg c t)) c.Room := by
          simp [removeClientFromRoom, hlk, hc]
        rw [hun]
        apply Inv_bcastCleanup _ _ _ (ms.erase c)
        · show KeysNodup (setRoom s.rooms c.Room (ms.erase c))
          exact keysNodup_setRoom _ _ _ hInv.1
        · exact lookupRoom_setRoom_self _ _ _
        · exact hnd.erase c
        · intro x hx
          exact (hmem x (List.mem_of_mem_erase hx)).1
        · intro x hx
          obtain ⟨hxc, hxm⟩ := (List.Nodup.mem_erase_iff hnd).mp hx
          show (getChan (setChan s.chans c (closeChan (getChan s.chans c))) x).closed
            = false
          rw [getChan_setChan_ne _ _ _ _ hxc]
          exact (hmem x hxm).2
        · intro p hp hpne
          rcases mem_setRoom_cases _ _ _ p hInv.1 hp with hpeq | ⟨hpmem, _⟩
          · exact absurd (by rw [hpeq]) hpne
          · obtain ⟨h1, h2, h3⟩ := hInv.2 p hpmem
            refine ⟨h1, h2, fun x hx => ⟨(h3 x hx).1, ?_⟩⟩
            have hxnotc : x ≠ c := by
              intro hxeq
              subst hxeq
              exact hpne ((h3 x hx).1 ▸ rfl)
            show (getChan (setChan s.chans c (closeChan (getChan s.chans c))) x).closed
              = false
            rw [getChan_setChan_ne _ _ _ _ hxnotc]
            exact (h3 x hx).2
      · have hun : removeClientFromRoom s c t =
            unregCleanup (broadcastToRoom s c.Room (leaveMsg c t)) c.Room := by
          simp [removeClientFromRoom, hlk, hc]
        rw [hun]
        apply Inv_bcastCleanup _ _ _ ms hInv.1 hlk hnd
        · intro x hx
          exact (hmem x hx).1
        · intro x hx
          exact (hmem x hx).2
        · intro p hp _
          exact hInv.2 p hp

theorem Inv_runOps :
    ∀ (ops : List HubOp) (s : HubState),
      (∀ op ∈ ops, isRegOrUnreg op = true) → Inv s → Inv (runOps s ops) := by
  intro ops
  induction ops with
  | nil => intro s _ hs; exact hs
  | cons op rest ih =>
      intro s h hs
      have hop := h op (List.mem_cons_self _ _)
      have hrest : ∀ op2 ∈ rest, isRegOrUnreg op2 = true :=
        fun op2 h2 => h op2 (List.mem_cons_of_mem _ h2)
      show Inv (runOps (runOp s op) rest)
      cases op with
      | reg c t => exact ih _ hrest (Inv_registerClient s c t hs)
      | unreg c t => exact ih _ hrest (Inv_removeClientFromRoom s c t hs)
      | bcast n m => simp [isRegOrUnreg] at hop

/-! ### sendToClient, handleCommand and string helpers -/

theorem sendToClient_rooms (s : HubState) (c : Client) (msg : Message) :
    (sendToClient s c msg).rooms = s.rooms := by
  simp only [sendToClient]
  split
  · rfl
  · split <;> rfl

theorem sendToClient_blocked (s : HubState) (c : Client) (msg : Message) :
    (sendToClient s c msg).blocked = s.blocked := by
  simp only [sendToClient]
  split
  · rfl
  · split <;> rfl

theorem sendToClient_chans_ne (s : HubState) (c : Client) (msg : Message)
    (x : Client) (h : x ≠ c) :
    getChan (sendToClient s c msg).chans x = getChan s.chans x := by
  simp only [sendToClient]
  split
  · rfl
  · split <;> simp [getChan_setChan_ne _ _ _ _ h]

theorem sendToClient_enqueue (s : HubState) (c : Client) (msg : Message)
    (hopen : (getChan s.chans c).closed = false)
    (hlt : (getChan s.chans c).buf.length < (getChan s.chans c).cap) :
    getChan (sendToClient s c msg).chans c =
      { getChan s.chans c with
          buf := (getChan s.chans c).buf ++ [marshalMessage msg] } := by
  simp [sendToClient, hopen, hlt, getChan_setChan_self]

theorem sendToClient_full (s : HubState) (c : Client) (msg : Message)
    (hopen : (getChan s.chans c).closed = false)
    (hnlt : ¬ (getChan s.chans c).buf.length < (getChan s.chans c).cap) :
    getChan (sendToClient s c msg).chans c = closeChan (getChan s.chans c) := by
  simp [sendToClient, hopen, hnlt, getChan_setChan_self]

theorem handleCommand_some (s : HubState) (c : Client) (cmd : String) (t : Nat)
    (ms : List Client) (hms : lookupRoom s.rooms c.Room = some ms) :
    handleCommand s c cmd t =
      if cmd = "/users" then
        sendToClient s c ⟨MsgUserList, c.Room, c.Username,
          String.intercalate ", " (ms.map Client.Username), formatClock t⟩
      else if cmd = "/stats" then
        sendToClient s c ⟨MsgStats, c.Room, c.Username,
          marshalStats ((s.rooms.map (fun p => (p.1, p.2.length))).map Prod.snd).sum
            s.rooms.length, formatClock t⟩
      else if cmd = "/rooms" then
        sendToClient s c ⟨MsgRoom, c.Room, c.Username,
          marshalCounts (s.rooms.map (fun p => (p.1, p.2.length))), formatClock t⟩
      else sendToClient s c unknownReply := by
  simp [handleCommand, hms]

theorem handleCommand_rooms (s : HubState) (c : Client) (cmd : String) (t : Nat)
    (ms : List Client) (hms : lookupRoom s.rooms c.Room = some ms) :
    (handleCommand s c cmd t).rooms = s.rooms := by
  rw [handleCommand_some s c cmd t ms hms]
  split_ifs <;> exact sendToClient_rooms _ _ _

theorem handleCommand_chans_ne (s : HubState) (c : Client) (cmd : String)
    (t : Nat) (ms : List Client) (hms : lookupRoom s.rooms c.Room = some ms)
    (x : Client) (h : x ≠ c) :
    getChan (handleCommand s c cmd t).chans x = getChan s.chans x := by
  rw [handleCommand_some s c cmd t ms hms]
  split_ifs <;> exact sendToClient_chans_ne _ _ _ _ h

theorem formatClock_ne_empty (t : Nat) : formatClock t ≠ "" := by
  intro h
  have h2 := congrArg String.length h
  simp [formatClock, String.length] at h2

theorem dropWhile_head_not (p : Char → Bool) :
    ∀ (l : List Char) (ch : Char),
      (l.dropWhile p).head? = some ch → p ch = false := by
  intro l
  induction l with
  | nil => intro ch h; simp [List.dropWhile] at h
  | cons x xs ih =>
      intro ch h
      by_cases hx : p x = true
      · rw [List.dropWhile_cons_of_pos hx] at h
        exact ih ch h
      · rw [List.dropWhile_cons_of_neg hx] at h
        simp at h
        subst h
        simpa using hx

theorem dropWhile_getLast (p : Char → Bool) :
    ∀ (l : List Char), l.dropWhile p ≠ [] →
      (l.dropWhile p).getLast? = l.getLast? := by
  intro l
  induction l with
  | nil => intro h; simp [List.dropWhile] at h
  | cons x xs ih =>
      intro h
      by_cases hx : p x = true
      · rw [List.dropWhile_cons_of_pos hx] at h ⊢
        have hxs : xs ≠ [] := by
          intro he
          subst he
          simp [List.dropWhile] at h
        obtain ⟨y, ys, rfl⟩ := List.exists_cons_of_ne_nil hxs
        rw [ih h, List.getLast?_cons_cons]
      · rw [List.dropWhile_cons_of_neg hx]

/-! ### Claim C1 -/

set_option maxRecDepth 8000 in
/-- C1 counterexample: starting from the empty directory, register one client
in room r and broadcast 256 chat messages; the 256th broadcast finds the
client's queue full and evicts it, leaving room r present in the directory
with an empty membership set — refuting the claimed iff. -/
theorem C1_counterexample :
    (lookupRoom sEvicted.rooms "r").isSome = true ∧
      roomMembers sEvicted "r" = [] := by
  decide

/-- C1 (amended): for every sequence of register and unregister operations
from the empty directory, a room name is present in the directory iff that
room's membership is non-empty (in particular the last member leaving via
removeClientFromRoom deletes the room); a full-queue eviction during a
broadcast, however, can leave an empty room in the directory. -/
theorem C1_amended_directory_iff (ops : List HubOp)
    (h : ∀ op ∈ ops, isRegOrUnreg op = true) (name : String) :
    (lookupRoom (runOps hub0 ops).rooms name).isSome = true ↔
      roomMembers (runOps hub0 ops) name ≠ [] := by
  have hInv := Inv_runOps ops hub0 h Inv_hub0
  cases hlk : lookupRoom (runOps hub0 ops).rooms name with
  | none => simp [roomMembers, hlk]
  | some ms =>
      have hne := (hInv.2 (name, ms) (lookupRoom_mem _ _ _ hlk)).1
      simp [roomMembers, hlk, hne]

/-- C1 witness: the amended iff at a concrete one-operation sequence. -/
theorem C1_amended_witness :
    (lookupRoom (runOps hub0 [HubOp.reg cA 0]).rooms "r").isSome = true ↔
      roomMembers (runOps hub0 [HubOp.reg cA 0]) "r" ≠ [] :=
  C1_amended_directory_iff [HubOp.reg cA 0] (by decide) "r"

/-! ### Claim C2 -/

set_option maxRecDepth 8000 in
/-- C2 counterexample: in an execution containing no unregistration
(register cA, then 255 broadcasts, then the /users command), the direct
reply path finds cA's queue full and closes it: the queue is closed outside
unregistration, cA is still a member, and a subsequent unregistration
closes the already-closed queue a second time. -/
theorem C2_counterexample :
    (getChan (handleCommand sFull cA "/users" 0).chans cA).closed = true ∧
    (getChan (handleCommand sFull cA "/users" 0).chans cA).closeCount = 1 ∧
    cA ∈ roomMembers (handleCommand sFull cA "/users" 0) cA.Room ∧
    (getChan (removeClientFromRoom (handleCommand sFull cA "/users" 0) cA 1).chans
      cA).closeCount = 2 := by
  decide

/-- C2 (amended): the outbound queue is also closed outside unregistration:
sendToClient closes the requester's full queue without removing it from the
room, so a subsequent unregistration closes the same queue a second time (in
Go, a panic — recorded in the panicked flag). -/
theorem C2_amended_close_paths (s : HubState) (c : Client) (msg : Message)
    (t : Nat) (ms : List Client)
    (hms : lookupRoom s.rooms c.Room = some ms) (hc : c ∈ ms) (hnd : ms.Nodup)
    (hopen : (getChan s.chans c).closed = false)
    (hnlt : ¬ (getChan s.chans c).buf.length < (getChan s.chans c).cap) :
    (getChan (sendToClient s c msg).chans c).closed = true ∧
    (getChan (sendToClient s c msg).chans c).closeCount =
      (getChan s.chans c).closeCount + 1 ∧
    (sendToClient s c msg).rooms = s.rooms ∧
    (getChan (removeClientFromRoom (sendToClient s c msg) c t).chans c).closeCount =
      (getChan s.chans c).closeCount + 2 ∧
    (removeClientFromRoom (sendToClient s c msg) c t).panicked = true := by
  have hfullc := sendToClient_full s c msg hopen hnlt
  have hrooms1 := sendToClient_rooms s c msg
  have hms1 : lookupRoom (sendToClient s c msg).rooms c.Room = some ms := by
    rw [hrooms1]
    exact hms
  have hcnotin : c ∉ ms.erase c := fun hmem => ((hnd.mem_erase_iff).mp hmem).1 rfl
  have hun : removeClientFromRoom (sendToClient s c msg) c t =
      unregCleanup (broadcastToRoom
        { sendToClient s c msg with
            rooms := setRoom (sendToClient s c msg).rooms c.Room (ms.erase c),
            chans := setChan (sendToClient s c msg).chans c
              (closeChan (getChan (sendToClient s c msg).chans c)),
            panicked := (sendToClient s c msg).panicked ||
              (getChan (sendToClient s c msg).chans c).closed }
        c.Room (leaveMsg c t)) c.Room := by
    simp [removeClientFromRoom, hms1, hc]
  have hlkin : lookupRoom (setRoom (sendToClient s c msg).rooms c.Room
      (ms.erase c)) c.Room = some (ms.erase c) := lookupRoom_setRoom_self _ _ _
  refine ⟨by rw [hfullc]; rfl, by rw [hfullc]; rfl, hrooms1, ?_, ?_⟩
  · rw [hun, unregCleanup_chans]
    rw [broadcastToRoom_chans_notMem _ c.Room _ (ms.erase c) hlkin c hcnotin]
    rw [getChan_setChan_self, hfullc]
    simp [closeChan]
  · rw [hun, unregCleanup_panicked]
    apply broadcastToRoom_panicked_true
    show ((sendToClient s c msg).panicked ||
      (getChan (sendToClient s c msg).chans c).closed) = true
    rw [hfullc]
    simp [closeChan]

/-- C2 witness: the amended behavior at a concrete full-queue state. -/
theorem C2_amended_witness :
    (getChan (sendToClient wSfull wA wM).chans wA).closed = true ∧
    (getChan (removeClientFromRoom (sendToClient wSfull wA wM) wA 2).chans
      wA).closeCount = (getChan wSfull.chans wA).closeCount + 2 :=
  ⟨(C2_amended_close_paths wSfull wA wM 2 [wA, wB] (by decide) (by decide)
      (by decide) (by decide) (by decide)).1,
    (C2_amended_close_paths wSfull wA wM 2 [wA, wB] (by decide) (by decide)
      (by decide) (by decide) (by decide)).2.2.2.1⟩

/-! ### Claim C3 -/

/-- C3 counterexample: register cA and cB in room r, unregister cA, then
call removeClientFromRoom for cA a second time: although cA is already
removed, a leave notice is still enqueued onto member cB's outbound queue,
so the second call is not a no-op. -/
theorem C3_counterexample :
    (getChan (removeClientFromRoom s3pre cA 3).chans cB).buf.length =
      (getChan s3pre.chans cB).buf.length + 1 := by
  decide

/-- C3 (amended): when the session's room exists but the session is not a
member, removeClientFromRoom skips the membership delete and the queue close
(the session's own close count is unchanged), but still broadcasts a leave
notice to the room and deletes the room if the broadcast empties it; it is a
full no-op only when the room is absent from the directory. -/
theorem C3_amended_rebroadcast (s : HubState) (c : Client) (t : Nat)
    (ms : List Client) (hms : lookupRoom s.rooms c.Room = some ms)
    (hnotin : c ∉ ms) :
    removeClientFromRoom s c t =
      unregCleanup (broadcastToRoom s c.Room (leaveMsg c t)) c.Room ∧
    (getChan (removeClientFromRoom s c t).chans c).closeCount =
      (getChan s.chans c).closeCount := by
  have hun : removeClientFromRoom s c t =
      unregCleanup (broadcastToRoom s c.Room (leaveMsg c t)) c.Room := by
    simp [removeClientFromRoom, hms, hnotin]
  refine ⟨hun, ?_⟩
  rw [hun, unregCleanup_chans]
  rw [broadcastToRoom_chans_notMem s c.Room _ ms hms c hnotin]

/-- C3 witness: the amended behavior at a concrete state where the caller
was never a member of its (existing) room. -/
theorem C3_amended_witness :
    (getChan (removeClientFromRoom wS wC 0).chans wC).closeCount =
      (getChan wS.chans wC).closeCount :=
  (C3_amended_rebroadcast wS wC 0 [wA, wB] (by decide) (by decide)).2

/-! ### Claim C4 -/

/-- C4: a broadcast serializes the message once (the single serialized
payload, marshalMessage msg, is what every recipient receives) and attempts
a non-blocking enqueue for each member of the target room's current
membership: members with queue space receive exactly that payload, members
with full queues are evicted (removed from membership, queue closed), and
clients outside the membership — in particular members of every other room —
are untouched; other directory entries are unchanged. -/
theorem C4_broadcast_delivery (s : HubState) (roomName : String)
    (msg : Message) (ms : List Client)
    (hms : lookupRoom s.rooms roomName = some ms) (hnd : ms.Nodup)
    (hop : ∀ x ∈ ms, (getChan s.chans x).closed = false) :
    (∀ x ∈ ms, (getChan s.chans x).buf.length < (getChan s.chans x).cap →
      x ∈ roomMembers (broadcastToRoom s roomName msg) roomName ∧
      (getChan (broadcastToRoom s roomName msg).chans x).buf =
        (getChan s.chans x).buf ++ [marshalMessage msg]) ∧
    (∀ x ∈ ms, ¬ (getChan s.chans x).buf.length < (getChan s.chans x).cap →
      x ∉ roomMembers (broadcastToRoom s roomName msg) roomName ∧
      (getChan (broadcastToRoom s roomName msg).chans x).closed = true) ∧
    (∀ x, x ∉ ms →
      getChan (broadcastToRoom s roomName msg).chans x = getChan s.chans x) ∧
    (∀ n, n ≠ roomName →
      lookupRoom (broadcastToRoom s roomName msg).rooms n =
        lookupRoom s.rooms n) := by
  obtain ⟨hrooms2, _, _, hunch, henq, hcls⟩ :=
    broadcastToRoom_spec s roomName msg ms hms hnd hop
  have hmem2 : roomMembers (broadcastToRoom s roomName msg) roomName =
      ms.filter (fun x =>
        decide ((getChan s.chans x).buf.length < (getChan s.chans x).cap)) := by
    rw [roomMembers, hrooms2, lookupRoom_setRoom_self]
    rfl
  refine ⟨?_, ?_, hunch, ?_⟩
  · intro x hx hlt
    refine ⟨?_, ?_⟩
    · rw [hmem2]
      exact List.mem_filter.mpr ⟨hx, decide_eq_true hlt⟩
    · rw [henq x hx hlt]
  · intro x hx hnlt
    refine ⟨?_, ?_⟩
    · rw [hmem2]
      intro hmem
      exact hnlt (of_decide_eq_true (List.mem_filter.mp hmem).2)
    · rw [hcls x hx hnlt]
      rfl
  · intro n hn
    rw [hrooms2, lookupRoom_setRoom_ne _ _ _ _ hn]

/-- C4 witness: delivery to a member with queue space in a concrete state. -/
theorem C4_witness :
    wA ∈ roomMembers (broadcastToRoom wS "g" wM) "g" ∧
    (getChan (broadcastToRoom wS "g" wM).chans wA).buf =
      (getChan wS.chans wA).buf ++ [marshalMessage wM] :=
  (C4_broadcast_delivery wS "g" wM [wA, wB] (by decide) (by decide)
    (by decide)).1 wA (by decide) (by decide)

/-! ### Claim C9 -/

/-- C9: sendToClient on a full queue closes the queue but does not remove
the session from its room's membership, so the membership can contain a
session whose queue is closed; a subsequent broadcast to that room attempts
a send on the closed queue (in Go, a panic — the panicked flag). -/
theorem C9_closed_member_broadcast (s : HubState) (c : Client)
    (msg msg2 : Message) (ms : List Client)
    (hms : lookupRoom s.rooms c.Room = some ms) (hc : c ∈ ms)
    (hopen : (getChan s.chans c).closed = false)
    (hnlt : ¬ (getChan s.chans c).buf.length < (getChan s.chans c).cap) :
    (getChan (sendToClient s c msg).chans c).closed = true ∧
    c ∈ roomMembers (sendToClient s c msg) c.Room ∧
    (broadcastToRoom (sendToClient s c msg) c.Room msg2).panicked = true := by
  have hfullc := sendToClient_full s c msg hopen hnlt
  have hms1 : lookupRoom (sendToClient s c msg).rooms c.Room = some ms := by
    rw [sendToClient_rooms]
    exact hms
  refine ⟨by rw [hfullc]; rfl, ?_, ?_⟩
  · rw [roomMembers, hms1]
    simpa using hc
  · simp only [broadcastToRoom, hms1]
    have hdel : (deliver (marshalMessage msg2) ms
        (sendToClient s c msg).chans).panicked = true :=
      deliver_panic_of_closed _ ms _ c hc (by rw [hfullc]; rfl)
    simp [hdel]

/-- C9 witness: the hazard at a concrete full-queue member. -/
theorem C9_witness :
    (getChan (sendToClient wSfull wA wM).chans wA).closed = true ∧
    wA ∈ roomMembers (sendToClient wSfull wA wM) wA.Room ∧
    (broadcastToRoom (sendToClient wSfull wA wM) wA.Room wM).panicked = true :=
  C9_closed_member_broadcast wSfull wA wM wM [wA, wB] (by decide) (by decide)
    (by decide) (by decide)

/-! ### Claim C5 -/

/-- C5 counterexample: a request whose room parameter consists only of
whitespace is not rejected — the emptiness check runs before trimming, so
the upgrade proceeds and a session is created whose room name is the empty
string, refuting the claim that such a request is rejected before the
upgrade. -/
theorem C5_counterexample :
    handleWebSocketAccept "alice" "   " 0 = some ⟨"alice-0", "alice", ""⟩ := by
  decide

/-- C5 (amended): a session is rejected iff the username or the untrimmed
room parameter is empty; trimming happens only after that check, so a
whitespace-only room is accepted and yields a session whose room name is
empty; an accepted session's room name is the trimmed parameter and carries
no surrounding whitespace. -/
theorem C5_amended_validation (u r : String) (t : Nat) :
    (handleWebSocketAccept u r t = none ↔ (u = "" ∨ r = "")) ∧
    (∀ cl, handleWebSocketAccept u r t = some cl →
      cl.Username = u ∧ cl.Room = trimSpace r ∧
      (∀ ch, (trimSpace r).data.head? = some ch → isSpace ch = false) ∧
      (∀ ch, (trimSpace r).data.getLast? = some ch → isSpace ch = false)) := by
  have hdata : (trimSpace r).data =
      (r.data.reverse.dropWhile isSpace).reverse.dropWhile isSpace := rfl
  constructor
  · constructor
    · intro h
      by_cases hu : u = ""
      · exact Or.inl hu
      · by_cases hr : r = ""
        · exact Or.inr hr
        · simp [handleWebSocketAccept, hu, hr] at h
    · intro h
      rcases h with h | h <;> simp [handleWebSocketAccept, h]
  · intro cl hcl
    by_cases hu : u = ""
    · simp [handleWebSocketAccept, hu] at hcl
    · by_cases hr : r = ""
      · simp [handleWebSocketAccept, hr] at hcl
      · have hcl2 : cl = ⟨u ++ "-" ++ toString t, u, trimSpace r⟩ := by
          simp [handleWebSocketAccept, hu, hr] at hcl
          exact hcl.symm
        subst hcl2
        refine ⟨rfl, rfl, ?_, ?_⟩
        · intro ch hch
          rw [hdata] at hch
          exact dropWhile_head_not isSpace _ ch hch
        · intro ch hch
          rw [hdata] at hch
          have hne : (r.data.reverse.dropWhile isSpace).reverse.dropWhile isSpace
              ≠ [] := by
            intro he
            rw [he] at hch
            simp at hch
          rw [dropWhile_getLast isSpace _ hne, List.getLast?_reverse] at hch
          exact dropWhile_head_not isSpace _ ch hch

/-- C5 witness: the amended contract at concrete parameters with surrounding
whitespace in the room. -/
theorem C5_amended_witness :
    (⟨"alice-0", "alice", "bob"⟩ : Client).Username = "alice" ∧
    (⟨"alice-0", "alice", "bob"⟩ : Client).Room = trimSpace " bob " ∧
    (∀ ch, (trimSpace " bob ").data.head? = some ch → isSpace ch = false) ∧
    (∀ ch, (trimSpace " bob ").data.getLast? = some ch → isSpace ch = false) :=
  (C5_amended_validation "alice" " bob " 0).2 ⟨"alice-0", "alice", "bob"⟩
    (by decide)

/-! ### Claim C6 -/

/-- C6: a decoded inbound frame whose text does not begin with the command
marker is stamped before broadcast: the message handed to the broadcaster
has type chat, the session's username and room, the inbound text unchanged,
and a non-empty time — whatever type, room, username or time the client
supplied; a frame that fails to decode leaves the state unchanged. -/
theorem C6_chat_stamping (s : HubState) (c : Client) (m : Message) (t : Nat)
    (h : startsWithSlash m.Text = false) :
    (stampChat c m t).MType = "chat" ∧
    (stampChat c m t).Username = c.Username ∧
    (stampChat c m t).Room = c.Room ∧
    (stampChat c m t).Text = m.Text ∧
    (stampChat c m t).Time ≠ "" ∧
    readPumpStep s c (some m) t = broadcastToRoom s c.Room (stampChat c m t) ∧
    readPumpStep s c none t = s := by
  refine ⟨rfl, rfl, rfl, rfl, formatClock_ne_empty t, ?_, rfl⟩
  simp [readPumpStep, h]

/-- C6 witness: stamping of a concrete frame carrying bogus client-supplied
type, room, username and time. -/
theorem C6_witness :
    (stampChat cA wM6 0).MType = "chat" ∧
    readPumpStep hub0 cA (some wM6) 0 =
      broadcastToRoom hub0 cA.Room (stampChat cA wM6 0) :=
  ⟨(C6_chat_stamping hub0 cA wM6 0 (by decide)).1,
    (C6_chat_stamping hub0 cA wM6 0 (by decide)).2.2.2.2.2.1⟩

/-! ### Claim C7 -/

/-- C7: registering a session naming an unknown room creates the room in the
directory; after every register the join notice is broadcast to the room and
the joiner — whose fresh 256-slot queue cannot be full — receives it; when
the room was unknown the joiner is its sole member, hence the sole recipient
of its own join notice (all other clients' queues are untouched). -/
theorem C7_register_join_notice (s : HubState) (c : Client) (t : Nat)
    (hnd : (roomMembers s c.Room).Nodup)
    (hnotin : c ∉ roomMembers s c.Room)
    (hop : ∀ x ∈ roomMembers s c.Room, (getChan s.chans x).closed = false) :
    (lookupRoom (registerClient s c t).rooms c.Room).isSome = true ∧
    getChan (registerClient s c t).chans c =
      ⟨[marshalMessage (joinMsg c t)], 256, false, 0⟩ ∧
    c ∈ roomMembers (registerClient s c t) c.Room ∧
    (∀ x, x ≠ c → x ∉ roomMembers s c.Room →
      getChan (registerClient s c t).chans x = getChan s.chans x) ∧
    (lookupRoom s.rooms c.Room = none →
      roomMembers (registerClient s c t) c.Room = [c]) := by
  have hun : registerClient s c t = broadcastToRoom
      { s with
          rooms := setRoom s.rooms c.Room (roomMembers s c.Room ++ [c]),
          chans := setChan s.chans c newSendChan }
      c.Room (joinMsg c t) := by
    have hnotin2 : c ∉ (lookupRoom s.rooms c.Room).getD [] := hnotin
    simp [registerClient, addClientToRoom, roomMembers, hnotin2]
  have hnd2 : (roomMembers s c.Room ++ [c]).Nodup := by
    rw [List.nodup_append]
    refine ⟨hnd, List.nodup_singleton c, ?_⟩
    intro a ha hb
    simp at hb
    subst hb
    exact hnotin ha
  have hgcc : getChan (setChan s.chans c newSendChan) c = newSendChan :=
    getChan_setChan_self _ _ _
  have hop1 : ∀ x ∈ roomMembers s c.Room ++ [c],
      (getChan (setChan s.chans c newSendChan) x).closed = false := by
    intro x hx
    by_cases hxc : x = c
    · subst hxc
      rw [hgcc]
      rfl
    · rw [getChan_setChan_ne _ _ _ _ hxc]
      rcases List.mem_append.mp hx with h | h
      · exact hop x h
      · simp at h
        exact absurd h hxc
  obtain ⟨hrooms2, hpan, hblk, hunch, henq, hcls⟩ :=
    broadcastToRoom_spec
      { s with
          rooms := setRoom s.rooms c.Room (roomMembers s c.Room ++ [c]),
          chans := setChan s.chans c newSendChan }
      c.Room (joinMsg c t) (roomMembers s c.Room ++ [c])
      (lookupRoom_setRoom_self _ _ _) hnd2 hop1
  have hcm : c ∈ roomMembers s c.Room ++ [c] := by simp
  have hclt : (getChan
      ({ s with
          rooms := setRoom s.rooms c.Room (roomMembers s c.Room ++ [c]),
          chans := setChan s.chans c newSendChan } : HubState).chans c).buf.length <
      (getChan
      ({ s with
          rooms := setRoom s.rooms c.Room (roomMembers s c.Room ++ [c]),
          chans := setChan s.chans c newSendChan } : HubState).chans c).cap := by
    show (getChan (setChan s.chans c newSendChan) c).buf.length <
      (getChan (setChan s.chans c newSendChan) c).cap
    rw [hgcc]
    decide
  refine ⟨?_, ?_, ?_, ?_, ?_⟩
  · rw [hun, hrooms2]
    show (lookupRoom (setRoom _ c.Room _) c.Room).isSome = true
    rw [lookupRoom_setRoom_self]
    rfl
  · rw [hun, henq c hcm hclt]
    show ({ getChan (setChan s.chans c newSendChan) c with
        buf := (getChan (setChan s.chans c newSendChan) c).buf ++
          [marshalMessage (joinMsg c t)] } : Chan) = _
    rw [hgcc]
    rfl
  · rw [hun, roomMembers, hrooms2]
    show c ∈ (lookupRoom (setRoom _ c.Room _) c.Room).getD []
    rw [lookupRoom_setRoom_self]
    refine List.mem_filter.mpr ⟨hcm, ?_⟩
    show decide ((getChan (setChan s.chans c newSendChan) c).buf.length <
      (getChan (setChan s.chans c newSendChan) c).cap) = true
    rw [hgcc]
    decide
  · intro x hxc hxnot
    have hxnot2 : x ∉ roomMembers s c.Room ++ [c] := by
      intro hmem
      rcases List.mem_append.mp hmem with h | h
      · exact hxnot h
      · simp at h
        exact hxc h
    rw [hun, hunch x hxnot2]
    show getChan (setChan s.chans c newSendChan) x = getChan s.chans x
    exact getChan_setChan_ne _ _ _ _ hxc
  · intro hlknone
    have hms0 : roomMembers s c.Room = [] := by
      simp [roomMembers, hlknone]
    rw [hun, roomMembers, hrooms2]
    show (lookupRoom (setRoom _ c.Room _) c.Room).getD [] = [c]
    rw [lookupRoom_setRoom_self]
    show (roomMembers s c.Room ++ [c]).filter _ = [c]
    rw [hms0]
    show [c].filter _ = [c]
    rw [List.filter_cons]
    have hpc : decide ((getChan (setChan s.chans c newSendChan) c).buf.length <
        (getChan (setChan s.chans c newSendChan) c).cap) = true := by
      rw [hgcc]
      decide
    rw [if_pos (by simp [hpc])]
    rfl

/-- C7 witness: registering into the empty hub creates the room, the joiner
is the sole member, and the joiner's queue holds exactly its own join
notice. -/
theorem C7_witness :
    getChan (registerClient hub0 cA 0).chans cA =
      ⟨[marshalMessage (joinMsg cA 0)], 256, false, 0⟩ ∧
    roomMembers (registerClient hub0 cA 0) cA.Room = [cA] :=
  ⟨(C7_register_join_notice hub0 cA 0 (by decide) (by decide) (by decide)).2.1,
    (C7_register_join_notice hub0 cA 0 (by decide) (by decide)
      (by decide)).2.2.2.2 (by decide)⟩

/-! ### Claim C8 -/

/-- C8: when the requester's room is in the directory and the requester's
queue has space, the /users command enqueues exactly one reply — a user_list
message whose text is the comma-and-space-joined usernames of the room's
members — onto the requester's queue; and for every command, the directory
is unchanged and no session other than the requester is sent anything. -/
theorem C8_users_reply (s : HubState) (c : Client) (t : Nat) (ms : List Client)
    (hms : lookupRoom s.rooms c.Room = some ms)
    (hopen : (getChan s.chans c).closed = false)
    (hlt : (getChan s.chans c).buf.length < (getChan s.chans c).cap) :
    (getChan (handleCommand s c "/users" t).chans c).buf =
      (getChan s.chans c).buf ++
        [marshalMessage ⟨MsgUserList, c.Room, c.Username,
          String.intercalate ", " (ms.map Client.Username), formatClock t⟩] ∧
    (∀ cmd, (handleCommand s c cmd t).rooms = s.rooms) ∧
    (∀ cmd x, x ≠ c →
      getChan (handleCommand s c cmd t).chans x = getChan s.chans x) := by
  refine ⟨?_, fun cmd => handleCommand_rooms s c cmd t ms hms,
    fun cmd x hx => handleCommand_chans_ne s c cmd t ms hms x hx⟩
  rw [handleCommand_some s c "/users" t ms hms, if_pos rfl]
  rw [sendToClient_enqueue s c _ hopen hlt]

/-- C8 witness: the /users reply in a concrete two-member room. -/
theorem C8_witness :
    (getChan (handleCommand wS wA "/users" 0).chans wA).buf =
      (getChan wS.chans wA).buf ++
        [marshalMessage ⟨MsgUserList, wA.Room, wA.Username,
          String.intercalate ", " ([wA, wB].map Client.Username),
          formatClock 0⟩] :=
  (C8_users_reply wS wA 0 [wA, wB] (by decide) (by decide) (by decide)).1

/-! ### Claim C10 -/

/-- C10: command dispatch is by exact string equality: an inbound text that
begins with the command marker but is not exactly /users, /stats or /rooms
(for instance a case variant) yields exactly the unknown-command system
reply, enqueued on the requester's queue only; the directory and every other
session's queue are unchanged. -/
theorem C10_unknown_command (s : HubState) (c : Client) (m : Message) (t : Nat)
    (ms : List Client) (hms : lookupRoom s.rooms c.Room = some ms)
    (hsw : startsWithSlash m.Text = true)
    (h1 : m.Text ≠ "/users") (h2 : m.Text ≠ "/stats") (h3 : m.Text ≠ "/rooms")
    (hopen : (getChan s.chans c).closed = false)
    (hlt : (getChan s.chans c).buf.length < (getChan s.chans c).cap) :
    (getChan (readPumpStep s c (some m) t).chans c).buf =
      (getChan s.chans c).buf ++ [marshalMessage unknownReply] ∧
    (readPumpStep s c (some m) t).rooms = s.rooms ∧
    (∀ x, x ≠ c →
      getChan (readPumpStep s c (some m) t).chans x = getChan s.chans x) := by
  have hrp : readPumpStep s c (some m) t = handleCommand s c m.Text t := by
    simp [readPumpStep, hsw]
  rw [hrp]
  refine ⟨?_, handleCommand_rooms s c m.Text t ms hms,
    fun x hx => handleCommand_chans_ne s c m.Text t ms hms x hx⟩
  rw [handleCommand_some s c m.Text t ms hms, if_neg h1, if_neg h2, if_neg h3]
  rw [sendToClient_enqueue s c _ hopen hlt]

/-- C10 witness: the uppercase variant of /users gets the unknown-command
reply in a concrete state. -/
theorem C10_witness :
    (getChan (readPumpStep wS wA (some wM10) 0).chans wA).buf =
      (getChan wS.chans wA).buf ++ [marshalMessage unknownReply] :=
  (C10_unknown_command wS wA wM10 0 [wA, wB] (by decide) (by decide)
    (by decide) (by decide) (by decide) (by decide) (by decide)).1

end WsChat
